import Mathlib

/-!
Verification of the BOP Stack Builder part-resolution engine, stack
sequencer and report formatter.  Definitions are shallow embeddings of
the TypeScript source (`server/storage.ts`, `server/routes.ts`,
`server/services/pdfGenerator.ts`, the client configuration component,
`shared/schema.ts`).  Machine numbers are modelled as `Int` (the columns
are SQL integers), nullable columns as `Option`, SQL result ordering via
the stable `List.insertionSort` (JavaScript `Array.prototype.sort` and
SQL `ORDER BY ... ASC` both realise a stable sort by the given key).
-/

namespace BOP

/-- One row of the `flange_spec` catalog table (shared/schema.ts).
The four trailing columns are the nullable per-category pressures. -/
structure FlangeSpec where
  id : String
  nominalBore : String
  pressureClassLabel : String
  pressureClassPsi : Int
  boltCount : Int
  sizeOfBolts : String
  wrenchNo : Int
  truckUnitPsi : Int
  ringNeeded : String
  flangeSizeRaw : String
  annularPressure : Option Int
  singleRamPressure : Option Int
  doubleRamsPressure : Option Int
  mudCrossPressure : Option Int
deriving DecidableEq, Repr

/-- One row of the `part_selection` table.  `createdAt` is a timestamp
modelled as milliseconds; `none` mirrors a NULL timestamp. -/
structure PartSelection where
  id : String
  stackId : String
  partType : String
  spoolGroupId : Option String
  pressureValue : Option Int
  flangeSpecId : String
  createdAt : Option Int
deriving DecidableEq, Repr

/-- One row of the `stack_header` table. -/
structure StackHeader where
  id : String
  title : String
deriving DecidableEq, Repr

/-- One row of the `stack_order` table. -/
structure StackOrderRow where
  stackId : String
  partSelectionId : String
  position : Nat
deriving DecidableEq, Repr

/- The `PartType` closed enumeration from shared/schema.ts (values are
plain strings in the source). -/
namespace PartType

def ANNULAR : String := "ANNULAR"

def SINGLE_RAM : String := "SINGLE_RAM"

def DOUBLE_RAMS : String := "DOUBLE_RAMS"

def MUD_CROSS : String := "MUD_CROSS"

def ANACONDA_LINES : String := "ANACONDA_LINES"

def ROTATING_HEAD : String := "ROTATING_HEAD"

def ADAPTER_SPOOL_SIDE : String := "ADAPTER_SPOOL_SIDE"

end PartType

/-- The `FlangeFilterOptions` filter bag of storage.ts.  Every field is
optional; route code drops absent query parameters, so `none` mirrors
`undefined`. -/
structure FlangeFilterOptions where
  partType : Option String := none
  pressure : Option Int := none
  flangeSize : Option String := none
  boltCount : Option Int := none
  boltSize : Option String := none
deriving DecidableEq, Repr

/-- Lexicographic comparison of char codes, the order realised by SQL
`ORDER BY` on the text columns and by JavaScript string comparison; a
hand-rolled Bool so that concrete instances kernel-reduce. -/
def charsLe : List Char → List Char → Bool
  | [], _ => true
  | _ :: _, [] => false
  | a :: as, b :: bs =>
    if a.toNat < b.toNat then true
    else if b.toNat < a.toNat then false
    else charsLe as bs

/-- Ascending string comparison used as a sort key. -/
def strLe (a b : String) : Bool :=
  charsLe a.data b.data

/-- The pressure column selected by the `switch (partType)` statements of
`getFlangeSpecs` and `getPressureOptions` in storage.ts: the four
attribute-driven categories map to their column, everything else to
`none` (the `default` branch). -/
def pressureColumnOf (pt : String) : Option (FlangeSpec → Option Int) :=
  if pt = PartType.ANNULAR then some (fun r => r.annularPressure)
  else if pt = PartType.SINGLE_RAM then some (fun r => r.singleRamPressure)
  else if pt = PartType.DOUBLE_RAMS then some (fun r => r.doubleRamsPressure)
  else if pt = PartType.MUD_CROSS then some (fun r => r.mudCrossPressure)
  else none

/-- The three geometry-driven / composite categories that pass the
category stage of `getFlangeSpecs` without any pressure condition. -/
def isGeometryCategory (pt : String) : Bool :=
  pt = PartType.ANACONDA_LINES || pt = PartType.ROTATING_HEAD ||
    pt = PartType.ADAPTER_SPOOL_SIDE

/-- The category-stage condition of `getFlangeSpecs` for an
attribute-driven category: with a pressure filter present, equality on
the column; otherwise the column must be non-null (`isNotNull`). -/
def passesPressure (col : FlangeSpec → Option Int) (pressure : Option Int)
    (r : FlangeSpec) : Bool :=
  match pressure with
  | some p => col r = some p
  | none => (col r).isSome

/-- The category stage of `getFlangeSpecs` (storage.ts lines 91-138).
The switch sits behind the JavaScript truthiness gate
`if (filters.partType)`, so an absent part type AND a present
empty-string part type both skip the switch entirely (no category
condition, full catalog passes).  A recognised attribute-driven category
filters on its pressure column; the geometry categories pass everything;
any other non-empty category hits the `default` branch and returns the
empty list immediately (modelled as `none`). -/
def categoryStage (catalog : List FlangeSpec) (f : FlangeFilterOptions) :
    Option (List FlangeSpec) :=
  match f.partType with
  | none => some catalog
  | some pt =>
    if pt = "" then some catalog
    else
      match pressureColumnOf pt with
      | some col => some (catalog.filter (passesPressure col f.pressure))
      | none => if isGeometryCategory pt then some catalog else none

/-- The progressive-narrowing filters of `getFlangeSpecs` (storage.ts
lines 141-151), applied in source order.  The string filters sit behind
JavaScript truthiness checks (`if (filters.flangeSize)`), so an empty
string behaves like an absent filter; `boltCount` is checked against
`undefined` only. -/
def applyGeoFilters (f : FlangeFilterOptions) (l : List FlangeSpec) :
    List FlangeSpec :=
  let l1 := match f.flangeSize with
    | some s => if s = "" then l else l.filter (fun r => r.flangeSizeRaw = s)
    | none => l
  let l2 := match f.boltCount with
    | some n => l1.filter (fun r => r.boltCount = n)
    | none => l1
  match f.boltSize with
  | some s => if s = "" then l2 else l2.filter (fun r => r.sizeOfBolts = s)
  | none => l2

/-- `DatabaseStorage.getFlangeSpecs` (storage.ts lines 83-167): category
stage, then the equality filters, then `ORDER BY flange_size_raw ASC`.
Both the with-conditions and the no-conditions query sort the result. -/
def getFlangeSpecs (catalog : List FlangeSpec) (f : FlangeFilterOptions) :
    List FlangeSpec :=
  match categoryStage catalog f with
  | none => []
  | some l =>
    (applyGeoFilters f l).insertionSort
      (fun a b => strLe a.flangeSizeRaw b.flangeSizeRaw = true)

/-- `DatabaseStorage.getPressureOptions` (storage.ts lines 177-204):
`SELECT DISTINCT ... WHERE col IS NOT NULL ORDER BY col ASC` followed by
the JavaScript `.filter(p => p > 0)`.  The SQL part is the sorted list
of the distinct non-null column values. -/
def getPressureOptions (catalog : List FlangeSpec) (pt : String) : List Int :=
  match pressureColumnOf pt with
  | none => []
  | some col =>
    (((catalog.filterMap col).dedup).insertionSort (fun a b => a ≤ b)).filter
      (fun p => 0 < p)

/-- The dependent flange-size options offered by the client
(`PartConfiguration`, `uniqueFlangeSizes`): project the attribute from
the fetched candidate set and deduplicate (`Array.from(new Set(...))`). -/
def uniqueFlangeSizes (catalog : List FlangeSpec) (f : FlangeFilterOptions) :
    List String :=
  ((getFlangeSpecs catalog f).map (fun r => r.flangeSizeRaw)).dedup

/-- The dependent bolt-count options (`uniqueBoltCounts`). -/
def uniqueBoltCounts (catalog : List FlangeSpec) (f : FlangeFilterOptions) :
    List Int :=
  ((getFlangeSpecs catalog f).map (fun r => r.boltCount)).dedup

/-- The dependent bolt-size options (`uniqueBoltSizes`). -/
def uniqueBoltSizes (catalog : List FlangeSpec) (f : FlangeFilterOptions) :
    List String :=
  ((getFlangeSpecs catalog f).map (fun r => r.sizeOfBolts)).dedup

/-- A part selection joined with its flange spec, as returned by
`getStackWithParts` and consumed by the report generator. -/
structure PartWithSpec where
  part : PartSelection
  flangeSpec : FlangeSpec
deriving DecidableEq, Repr

/-- The persistent state the stack sequencer operates on: the relevant
tables of the database. -/
structure DB where
  flangeSpecs : List FlangeSpec := []
  stackHeaders : List StackHeader := []
  partSelections : List PartSelection := []
  stackOrders : List StackOrderRow := []
deriving DecidableEq, Repr

/-- `DatabaseStorage.addPartToStack` (storage.ts lines 277-303): insert
the selection, then append an order row at `max position + 1` (or `0`
for an empty order list). -/
def addPartToStack (part : PartSelection) (db : DB) : DB :=
  let db1 : DB := { db with partSelections := db.partSelections ++ [part] }
  let existing := (db.stackOrders.filter (fun o => o.stackId = part.stackId)).map
    (fun o => o.position)
  let nextPosition := match existing.max? with
    | some m => m + 1
    | none => 0
  { db1 with stackOrders :=
      db1.stackOrders ++ [⟨part.stackId, part.id, nextPosition⟩] }

/-- `DatabaseStorage.removePartFromStack` (storage.ts lines 305-307):
delete the single selection row; the schema's `onDelete: "cascade"` on
`stack_order.part_selection_id` removes its order rows with it.  The
paired spool side of a composite group is NOT touched. -/
def removePartFromStack (partId : String) (db : DB) : DB :=
  { db with
    partSelections := db.partSelections.filter (fun p => ¬ p.id = partId),
    stackOrders := db.stackOrders.filter (fun o => ¬ o.partSelectionId = partId) }

/-- `DatabaseStorage.updateStackOrder` (storage.ts lines 309-323):
unconditionally delete every order row of the stack, then insert one row
per supplied id with its 0-based index as position.  There is no
permutation check anywhere on this path (the route only checks that the
body field is an array). -/
def updateStackOrder (stackId : String) (orderedPartIds : List String)
    (db : DB) : DB :=
  let remaining := db.stackOrders.filter (fun o => ¬ o.stackId = stackId)
  let newRows := orderedPartIds.enum.map
    (fun q => (⟨stackId, q.2, q.1⟩ : StackOrderRow))
  { db with stackOrders := remaining ++ newRows }

/-- The position a selection reads back with: the `leftJoin` of
`getStackWithParts` on `stack_order.part_selection_id`; `none` mirrors a
NULL position (selection absent from the order table). -/
def positionOf (db : DB) (partId : String) : Option Nat :=
  (db.stackOrders.find? (fun o => o.partSelectionId = partId)).map
    (fun o => o.position)

/-- Comparison used by `ORDER BY position ASC` under PostgreSQL
semantics: NULL sorts last on an ascending key. -/
def posLe (a b : Option Nat) : Bool :=
  match a, b with
  | some x, some y => x ≤ y
  | some _, none => true
  | none, some _ => false
  | none, none => true

/-- `DatabaseStorage.getStackWithParts` (storage.ts lines 233-271):
`none` when the stack header is missing; otherwise the stack's
selections INNER-joined with their flange spec (a selection whose spec
row is missing is silently dropped by the join), left-joined with the
order table and sorted by position ascending. -/
def getStackWithParts (id : String) (db : DB) :
    Option (StackHeader × List PartWithSpec) :=
  match db.stackHeaders.find? (fun s => s.id = id) with
  | none => none
  | some st =>
    let rows : List (PartWithSpec × Option Nat) :=
      (db.partSelections.filter (fun p => p.stackId = id)).filterMap
        (fun p =>
          (db.flangeSpecs.find? (fun fs => fs.id = p.flangeSpecId)).map
            (fun fs => (⟨p, fs⟩, positionOf db p.id)))
    some (st, (rows.insertionSort (fun a b => posLe a.2 b.2)).map (fun q => q.1))

/- Report formatter (server/services/pdfGenerator.ts). -/

/-- The four pressure-driven part types of `getPartDisplayName`. -/
def pressureDrivenParts : List String :=
  [PartType.ANNULAR, PartType.SINGLE_RAM, PartType.DOUBLE_RAMS, PartType.MUD_CROSS]

/-- The `names` lookup of `getPartDisplayName` with its
`|| partType` fallback. -/
def partBaseName (pt : String) : String :=
  if pt = PartType.ANNULAR then "Annular"
  else if pt = PartType.SINGLE_RAM then "Single B.O.P (RAM)"
  else if pt = PartType.DOUBLE_RAMS then "Double B.O.P (RAMs)"
  else if pt = PartType.MUD_CROSS then "Mud Cross"
  else if pt = PartType.ANACONDA_LINES then "Anaconda Lines"
  else if pt = PartType.ROTATING_HEAD then "Rotating Head"
  else if pt = PartType.ADAPTER_SPOOL_SIDE then "Adapter Spool"
  else pt

/-- `getPartDisplayName` (pdfGenerator.ts lines 11-37).  The pressure
segment is appended when the part type is pressure-driven AND the
pressure value is truthy: a null pressure and a stored `0` both fail the
JavaScript `&& pressure` test. -/
def getPartDisplayName (pt : String) (pressure : Option Int) : String :=
  let baseName := partBaseName pt
  match pressure with
  | some p =>
    if pressureDrivenParts.contains pt ∧ ¬ p = 0 then
      baseName ++ " – Pressure " ++ toString p
    else baseName
  | none => baseName

/-- The selection pressures kept by `getPressureRanges`
(pdfGenerator.ts line 252): `.filter(p => p && p > 0)` keeps the
non-null strictly positive values (null, 0 and negatives are dropped). -/
def positivePressures (parts : List PartWithSpec) : List Int :=
  ((parts.map (fun p => p.part.pressureValue)).filterMap id).filter
    (fun p => 0 < p)

/-- `getPressureRanges` (pdfGenerator.ts lines 249-261): the non-null
strictly positive selection pressures, sorted; `N/A` when none, a single
value when min = max, else a range.  `Math.min(...)` / `Math.max(...)`
over the array are the folds below. -/
def getPressureRanges (parts : List PartWithSpec) : String :=
  let pressures := (positivePressures parts).insertionSort (fun a b => a ≤ b)
  match pressures with
  | [] => "N/A"
  | x :: xs =>
    let mn := xs.foldl min x
    let mx := xs.foldl max x
    if mn = mx then toString mn ++ " PSI"
    else toString mn ++ "-" ++ toString mx ++ " PSI"

/-- `getFlangeClasses` (pdfGenerator.ts lines 263-269): the distinct
pressure-class labels sorted and joined with a comma; the JavaScript
`|| 'N/A'` fallback fires exactly when the joined string is empty. -/
def getFlangeClasses (parts : List PartWithSpec) : String :=
  let classes :=
    ((parts.map (fun p => p.flangeSpec.pressureClassLabel)).dedup).insertionSort
      (fun a b => strLe a b = true)
  let joined := String.intercalate ", " classes
  if joined = "" then "N/A" else joined

/-- The total-part count displayed in the report summary
(`stackData.parts.length`, pdfGenerator.ts lines 216 and 232). -/
def reportTotalParts (parts : List PartWithSpec) : Nat :=
  parts.length

/- Helper lemmas about the filtering engine. -/

/-- The conjunction of the three progressive-narrowing conditions, as a
predicate on one record. -/
def geoPass (f : FlangeFilterOptions) (r : FlangeSpec) : Bool :=
  (match f.flangeSize with
   | some s => if s = "" then true else r.flangeSizeRaw = s
   | none => true) &&
  (match f.boltCount with
   | some n => r.boltCount = n
   | none => true) &&
  (match f.boltSize with
   | some s => if s = "" then true else r.sizeOfBolts = s
   | none => true)

theorem mem_applyGeoFilters {f : FlangeFilterOptions} {l : List FlangeSpec}
    {r : FlangeSpec} :
    r ∈ applyGeoFilters f l ↔ r ∈ l ∧ geoPass f r = true := by
  unfold applyGeoFilters geoPass
  cases hfs : f.flangeSize <;> cases hbc : f.boltCount <;>
    cases hbs : f.boltSize <;>
    simp only [List.mem_filter] <;>
    (try split_ifs) <;>
    simp [List.mem_filter, and_assoc] <;>
    tauto

theorem mem_getFlangeSpecs {catalog : List FlangeSpec}
    {f : FlangeFilterOptions} {r : FlangeSpec} :
    r ∈ getFlangeSpecs catalog f ↔
      ∃ l, categoryStage catalog f = some l ∧ r ∈ l ∧ geoPass f r = true := by
  unfold getFlangeSpecs
  cases hc : categoryStage catalog f with
  | none => simp
  | some l =>
    rw [List.mem_insertionSort, mem_applyGeoFilters]
    constructor
    · exact fun h => ⟨l, rfl, h.1, h.2⟩
    · rintro ⟨l', hl', hm, hp⟩
      have hll : l = l' := Option.some.inj hl'
      exact ⟨hll ▸ hm, hp⟩

theorem categoryStage_attr {catalog : List FlangeSpec} {f : FlangeFilterOptions}
    {pt : String} {col : FlangeSpec → Option Int} (hpt : f.partType = some pt)
    (hcol : pressureColumnOf pt = some col) :
    categoryStage catalog f =
      some (catalog.filter (passesPressure col f.pressure)) := by
  have hne : ¬ pt = "" := by
    intro h
    rw [h] at hcol
    have hnone : pressureColumnOf "" = none := rfl
    exact Option.noConfusion (hnone.symm.trans hcol)
  unfold categoryStage
  rw [hpt]
  simp [hne, hcol]

theorem categoryStage_geo {catalog : List FlangeSpec} {f : FlangeFilterOptions}
    {pt : String} (hpt : f.partType = some pt)
    (hcol : pressureColumnOf pt = none) (hgeo : isGeometryCategory pt = true) :
    categoryStage catalog f = some catalog := by
  have hne : ¬ pt = "" := by
    intro h
    rw [h] at hgeo
    exact absurd hgeo (by decide)
  unfold categoryStage
  rw [hpt]
  simp [hne, hcol, hgeo]

theorem categoryStage_unknown {catalog : List FlangeSpec}
    {f : FlangeFilterOptions} {pt : String} (hpt : f.partType = some pt)
    (hne : ¬ pt = "") (hcol : pressureColumnOf pt = none)
    (hgeo : isGeometryCategory pt = false) :
    categoryStage catalog f = none := by
  unfold categoryStage
  rw [hpt]
  simp [hne, hcol, hgeo]

/-- A present empty-string part type fails the truthiness gate and skips
the category switch: no category condition is applied (fail open). -/
theorem categoryStage_empty {catalog : List FlangeSpec}
    {f : FlangeFilterOptions} (hpt : f.partType = some "") :
    categoryStage catalog f = some catalog := by
  unfold categoryStage
  rw [hpt]
  simp

theorem geometry_pressureColumn_none {pt : String}
    (h : isGeometryCategory pt = true) : pressureColumnOf pt = none := by
  unfold isGeometryCategory at h
  simp only [Bool.or_eq_true, decide_eq_true_eq] at h
  rcases h with (h | h) | h <;> subst h <;> rfl

/-- The category stage reads only the part type and the pressure filter. -/
theorem categoryStage_congr (catalog : List FlangeSpec)
    {f g : FlangeFilterOptions} (hpt : g.partType = f.partType)
    (hpr : g.pressure = f.pressure) :
    categoryStage catalog g = categoryStage catalog f := by
  unfold categoryStage
  rw [hpt, hpr]

theorem geoPass_update_flangeSize {f : FlangeFilterOptions} {r : FlangeSpec}
    {v : String} (h : geoPass f r = true) (hv : r.flangeSizeRaw = v) :
    geoPass { f with flangeSize := some v } r = true := by
  cases f with
  | mk fpt fpr ffs fbc fbs =>
    unfold geoPass at h ⊢
    rw [Bool.and_eq_true, Bool.and_eq_true] at h ⊢
    refine ⟨⟨?_, h.1.2⟩, h.2⟩
    by_cases hv0 : v = "" <;> simp [hv0, hv]

theorem geoPass_update_boltCount {f : FlangeFilterOptions} {r : FlangeSpec}
    {n : Int} (h : geoPass f r = true) (hn : r.boltCount = n) :
    geoPass { f with boltCount := some n } r = true := by
  cases f with
  | mk fpt fpr ffs fbc fbs =>
    unfold geoPass at h ⊢
    rw [Bool.and_eq_true, Bool.and_eq_true] at h ⊢
    exact ⟨⟨h.1.1, by simp [hn]⟩, h.2⟩

theorem geoPass_update_boltSize {f : FlangeFilterOptions} {r : FlangeSpec}
    {v : String} (h : geoPass f r = true) (hv : r.sizeOfBolts = v) :
    geoPass { f with boltSize := some v } r = true := by
  cases f with
  | mk fpt fpr ffs fbc fbs =>
    unfold geoPass at h ⊢
    rw [Bool.and_eq_true, Bool.and_eq_true] at h ⊢
    refine ⟨⟨h.1.1, h.1.2⟩, ?_⟩
    by_cases hv0 : v = "" <;> simp [hv0, hv]

/- Sample catalog rows used to instantiate the theorems on concrete
inputs. -/

def sampleSpec : FlangeSpec :=
  { id := "fs1", nominalBore := "13-5/8", pressureClassLabel := "5M",
    pressureClassPsi := 5000, boltCount := 8, sizeOfBolts := "1-1/8",
    wrenchNo := 24, truckUnitPsi := 4500, ringNeeded := "R-54",
    flangeSizeRaw := "13-5/8 5M", annularPressure := some 5000,
    singleRamPressure := some 5000, doubleRamsPressure := none,
    mudCrossPressure := none }

def sampleSpecB : FlangeSpec :=
  { id := "fs2", nominalBore := "13-5/8", pressureClassLabel := "10M",
    pressureClassPsi := 10000, boltCount := 12, sizeOfBolts := "1-3/8",
    wrenchNo := 30, truckUnitPsi := 9000, ringNeeded := "R-57",
    flangeSizeRaw := "13-5/8 10M", annularPressure := some 10000,
    singleRamPressure := none, doubleRamsPressure := some 10000,
    mudCrossPressure := none }

/- Claim theorems: filtering engine. -/

/-- C10: for the geometry-driven / composite categories (ANACONDA_LINES,
ROTATING_HEAD, ADAPTER_SPOOL_SIDE), two filter bags that agree on the
geometric filters but differ arbitrarily in the pressure field produce
identical candidate lists: the pressure filter is never consulted. -/
theorem geometry_ignores_pressure_filter (catalog : List FlangeSpec)
    (f : FlangeFilterOptions) (pt : String) (hpt : f.partType = some pt)
    (hgeo : isGeometryCategory pt = true) (p1 p2 : Option Int) :
    getFlangeSpecs catalog { f with pressure := p1 } =
      getFlangeSpecs catalog { f with pressure := p2 } := by
  have hcol : pressureColumnOf pt = none := geometry_pressureColumn_none hgeo
  have h1 : categoryStage catalog { f with pressure := p1 } = some catalog :=
    categoryStage_geo (f := { f with pressure := p1 }) hpt hcol hgeo
  have h2 : categoryStage catalog { f with pressure := p2 } = some catalog :=
    categoryStage_geo (f := { f with pressure := p2 }) hpt hcol hgeo
  unfold getFlangeSpecs
  rw [h1, h2]
  rfl

/-- Witness for C10 at a concrete catalog and filter bag. -/
theorem geometry_ignores_pressure_filter_witness :
    getFlangeSpecs [sampleSpec, sampleSpecB]
        { partType := some "ROTATING_HEAD", pressure := some 5000,
          flangeSize := some "13-5/8 5M" } =
      getFlangeSpecs [sampleSpec, sampleSpecB]
        { partType := some "ROTATING_HEAD", pressure := none,
          flangeSize := some "13-5/8 5M" } :=
  geometry_ignores_pressure_filter [sampleSpec, sampleSpecB]
    { partType := some "ROTATING_HEAD", flangeSize := some "13-5/8 5M" }
    "ROTATING_HEAD" rfl (by decide) (some 5000) none

/-- C4 (amended): the category stage of candidate filtering keeps, for an
attribute-driven category with a pressure filter, exactly the records
whose pressure column equals the filter; without a pressure filter,
exactly those where the column is non-null; geometry-driven / composite
categories pass every record; an unrecognised NON-EMPTY category yields
the empty list (fail closed), while a present empty-string category
fails the truthiness gate `if (filters.partType)` and skips the category
stage entirely (fail open: the whole catalog passes it).  The remaining
filters are equality conjunctions, with the caveat that a
present-but-empty string filter is likewise ignored (JavaScript
truthiness), as recorded in `geoPass`. -/
theorem filterCandidates_category_semantics (catalog : List FlangeSpec)
    (f : FlangeFilterOptions) (r : FlangeSpec) :
    (∀ pt col p, f.partType = some pt → pressureColumnOf pt = some col →
        f.pressure = some p →
        (r ∈ getFlangeSpecs catalog f ↔
          r ∈ catalog ∧ col r = some p ∧ geoPass f r = true)) ∧
    (∀ pt col, f.partType = some pt → pressureColumnOf pt = some col →
        f.pressure = none →
        (r ∈ getFlangeSpecs catalog f ↔
          r ∈ catalog ∧ (col r).isSome = true ∧ geoPass f r = true)) ∧
    (∀ pt, f.partType = some pt → isGeometryCategory pt = true →
        (r ∈ getFlangeSpecs catalog f ↔ r ∈ catalog ∧ geoPass f r = true)) ∧
    (∀ pt, f.partType = some pt → ¬ pt = "" → pressureColumnOf pt = none →
        isGeometryCategory pt = false → getFlangeSpecs catalog f = []) ∧
    (f.partType = some "" →
        (r ∈ getFlangeSpecs catalog f ↔ r ∈ catalog ∧ geoPass f r = true)) := by
  refine ⟨?_, ?_, ?_, ?_, ?_⟩
  · intro pt col p hpt hcol hp
    rw [mem_getFlangeSpecs]
    constructor
    · rintro ⟨l, hl, hm, hg⟩
      rw [categoryStage_attr hpt hcol] at hl
      obtain rfl : catalog.filter (passesPressure col f.pressure) = l :=
        Option.some.inj hl
      rw [List.mem_filter] at hm
      have := hm.2
      rw [hp] at this
      unfold passesPressure at this
      simp only [decide_eq_true_eq] at this
      exact ⟨hm.1, this, hg⟩
    · rintro ⟨hm, hcp, hg⟩
      refine ⟨catalog.filter (passesPressure col f.pressure),
        (categoryStage_attr hpt hcol).symm ▸ rfl, ?_, hg⟩
      rw [List.mem_filter]
      refine ⟨hm, ?_⟩
      rw [hp]
      unfold passesPressure
      simp [hcp]
  · intro pt col hpt hcol hp
    rw [mem_getFlangeSpecs]
    constructor
    · rintro ⟨l, hl, hm, hg⟩
      rw [categoryStage_attr hpt hcol] at hl
      obtain rfl : catalog.filter (passesPressure col f.pressure) = l :=
        Option.some.inj hl
      rw [List.mem_filter] at hm
      have := hm.2
      rw [hp] at this
      unfold passesPressure at this
      exact ⟨hm.1, this, hg⟩
    · rintro ⟨hm, hcp, hg⟩
      refine ⟨catalog.filter (passesPressure col f.pressure),
        (categoryStage_attr hpt hcol).symm ▸ rfl, ?_, hg⟩
      rw [List.mem_filter]
      refine ⟨hm, ?_⟩
      rw [hp]
      unfold passesPressure
      exact hcp
  · intro pt hpt hgeo
    have hcol : pressureColumnOf pt = none := geometry_pressureColumn_none hgeo
    rw [mem_getFlangeSpecs]
    constructor
    · rintro ⟨l, hl, hm, hg⟩
      rw [categoryStage_geo hpt hcol hgeo] at hl
      obtain rfl : catalog = l := Option.some.inj hl
      exact ⟨hm, hg⟩
    · rintro ⟨hm, hg⟩
      exact ⟨catalog, categoryStage_geo hpt hcol hgeo, hm, hg⟩
  · intro pt hpt hne hcol hgeo
    unfold getFlangeSpecs
    rw [categoryStage_unknown hpt hne hcol hgeo]
  · intro hpt
    rw [mem_getFlangeSpecs]
    constructor
    · rintro ⟨l, hl, hm, hg⟩
      rw [categoryStage_empty hpt] at hl
      obtain rfl : catalog = l := Option.some.inj hl
      exact ⟨hm, hg⟩
    · rintro ⟨hm, hg⟩
      exact ⟨catalog, categoryStage_empty hpt, hm, hg⟩

/-- C4 counterexample, two concrete failures of the claim as stated.
First: a present size-label filter (the empty string) does not act as a
strict equality — the record whose size label differs is still
returned.  Second: the empty string is a category value outside the
recognised enumeration (no pressure column, not a geometry category),
yet filtering with it returns the full catalog instead of the claimed
immediate empty list: the truthiness gate fails open there. -/
theorem filterCandidates_empty_string_filter_ignored :
    (getFlangeSpecs [sampleSpec]
        { partType := some "ANACONDA_LINES", flangeSize := some "" } =
      [sampleSpec] ∧ ¬ sampleSpec.flangeSizeRaw = "") ∧
    (getFlangeSpecs [sampleSpec] { partType := some "" } = [sampleSpec] ∧
      pressureColumnOf "" = none ∧ isGeometryCategory "" = false) := by
  refine ⟨⟨rfl, by decide⟩, rfl, rfl, rfl⟩

/-- Witness for C4 on a concrete attribute-driven query. -/
theorem filterCandidates_category_semantics_witness :
    sampleSpec ∈ getFlangeSpecs [sampleSpec, sampleSpecB]
        { partType := some "ANNULAR", pressure := some 5000 } :=
  ((filterCandidates_category_semantics [sampleSpec, sampleSpecB]
      { partType := some "ANNULAR", pressure := some 5000 } sampleSpec).1
    "ANNULAR" (fun r => r.annularPressure) 5000 rfl rfl rfl).mpr (by decide)

/-- C5: for an attribute-driven category the target options are exactly
the distinct, strictly positive, non-null values of the category's
pressure column over the full catalog, in strictly ascending order; for
any other category (geometry-driven, composite or unrecognised) the
result is empty. -/
theorem getPressureOptions_spec (catalog : List FlangeSpec) (pt : String) :
    (∀ col, pressureColumnOf pt = some col →
        List.Sorted (fun a b => a < b) (getPressureOptions catalog pt) ∧
        ∀ v : Int, v ∈ getPressureOptions catalog pt ↔
          0 < v ∧ ∃ r ∈ catalog, col r = some v) ∧
    (pressureColumnOf pt = none → getPressureOptions catalog pt = []) := by
  constructor
  · intro col hcol
    unfold getPressureOptions
    rw [hcol]
    have hsorted :
        List.Sorted (fun a b => a ≤ b)
          (((catalog.filterMap col).dedup).insertionSort (fun a b => a ≤ b)) :=
      List.sorted_insertionSort _ _
    have hnodup :
        (((catalog.filterMap col).dedup).insertionSort (fun a b => a ≤ b)).Nodup :=
      (List.perm_insertionSort _ _).nodup_iff.mpr (List.nodup_dedup _)
    have hlt := hsorted.lt_of_le hnodup
    constructor
    · exact List.Pairwise.filter _ hlt
    · intro v
      rw [List.mem_filter, List.mem_insertionSort, List.mem_dedup,
        List.mem_filterMap]
      constructor
      · rintro ⟨⟨r, hr, hcr⟩, hv⟩
        exact ⟨by simpa using hv, r, hr, hcr⟩
      · rintro ⟨hv, r, hr, hcr⟩
        exact ⟨⟨r, hr, hcr⟩, by simpa using hv⟩
  · intro hcol
    unfold getPressureOptions
    rw [hcol]

/-- Witness for C5: on the sample catalog the ANNULAR options are the
sorted positive distinct annular pressures. -/
theorem getPressureOptions_spec_witness :
    List.Sorted (fun a b => a < b)
        (getPressureOptions [sampleSpec, sampleSpecB] "ANNULAR") ∧
      getPressureOptions [sampleSpecB] "ROTATING_HEAD" = [] :=
  ⟨((getPressureOptions_spec [sampleSpec, sampleSpecB] "ANNULAR").1
      (fun r => r.annularPressure) rfl).1,
    (getPressureOptions_spec [sampleSpecB] "ROTATING_HEAD").2 rfl⟩

/-- C2: every dependent option value (flange size, bolt count, bolt
size) offered by the client is the projection of that attribute over the
currently filtered candidate set, deduplicated (this is the definition
of the three option lists), and re-filtering with any offered value
yields a non-empty candidate set: no dead-end options. -/
theorem dependent_options_sound (catalog : List FlangeSpec)
    (f : FlangeFilterOptions) :
    (∀ v ∈ uniqueFlangeSizes catalog f,
        ¬ getFlangeSpecs catalog { f with flangeSize := some v } = []) ∧
    (∀ n ∈ uniqueBoltCounts catalog f,
        ¬ getFlangeSpecs catalog { f with boltCount := some n } = []) ∧
    (∀ s ∈ uniqueBoltSizes catalog f,
        ¬ getFlangeSpecs catalog { f with boltSize := some s } = []) := by
  refine ⟨?_, ?_, ?_⟩
  · intro v hv
    rw [uniqueFlangeSizes, List.mem_dedup, List.mem_map] at hv
    obtain ⟨r, hr, hrv⟩ := hv
    rw [mem_getFlangeSpecs] at hr
    obtain ⟨l, hl, hm, hg⟩ := hr
    have hr' : r ∈ getFlangeSpecs catalog { f with flangeSize := some v } := by
      rw [mem_getFlangeSpecs]
      exact ⟨l, (categoryStage_congr catalog rfl rfl).trans hl, hm,
        geoPass_update_flangeSize hg hrv⟩
    exact fun he => by rw [he] at hr'; exact (List.not_mem_nil r) hr'
  · intro n hn
    rw [uniqueBoltCounts, List.mem_dedup, List.mem_map] at hn
    obtain ⟨r, hr, hrn⟩ := hn
    rw [mem_getFlangeSpecs] at hr
    obtain ⟨l, hl, hm, hg⟩ := hr
    have hr' : r ∈ getFlangeSpecs catalog { f with boltCount := some n } := by
      rw [mem_getFlangeSpecs]
      exact ⟨l, (categoryStage_congr catalog rfl rfl).trans hl, hm,
        geoPass_update_boltCount hg hrn⟩
    exact fun he => by rw [he] at hr'; exact (List.not_mem_nil r) hr'
  · intro v hv
    rw [uniqueBoltSizes, List.mem_dedup, List.mem_map] at hv
    obtain ⟨r, hr, hrv⟩ := hv
    rw [mem_getFlangeSpecs] at hr
    obtain ⟨l, hl, hm, hg⟩ := hr
    have hr' : r ∈ getFlangeSpecs catalog { f with boltSize := some v } := by
      rw [mem_getFlangeSpecs]
      exact ⟨l, (categoryStage_congr catalog rfl rfl).trans hl, hm,
        geoPass_update_boltSize hg hrv⟩
    exact fun he => by rw [he] at hr'; exact (List.not_mem_nil r) hr'

/-- Witness for C2: the offered flange size narrows to a non-empty set. -/
theorem dependent_options_sound_witness :
    ¬ getFlangeSpecs [sampleSpec, sampleSpecB]
        { partType := some "ANNULAR", flangeSize := some "13-5/8 5M" } = [] :=
  (dependent_options_sound [sampleSpec, sampleSpecB]
      { partType := some "ANNULAR" }).1 "13-5/8 5M" (by decide)

/- Sample database rows for the stack-sequencer claims. -/

def partSel1 : PartSelection :=
  { id := "p1", stackId := "s", partType := "ANNULAR", spoolGroupId := none,
    pressureValue := some 5000, flangeSpecId := "fs1", createdAt := some 1 }

def partSel2 : PartSelection :=
  { id := "p2", stackId := "s", partType := "ROTATING_HEAD",
    spoolGroupId := none, pressureValue := none, flangeSpecId := "fs1",
    createdAt := some 2 }

def dbPair : DB :=
  { flangeSpecs := [sampleSpec], stackHeaders := [⟨"s", "Stack"⟩],
    partSelections := [partSel1, partSel2],
    stackOrders := [⟨"s", "p1", 0⟩, ⟨"s", "p2", 1⟩] }

/- Claim theorems: stack sequencer. -/

/-- C1 counterexample: a reorder input that omits a current member (so it
is not a permutation of the member set) is not rejected: the stored
position assignment is replaced anyway, with no error signalled (the
operation has no failure path at all). -/
theorem updateStackOrder_no_permutation_check :
    ¬ List.Perm ["p1"]
        ((dbPair.partSelections.filter (fun p => p.stackId = "s")).map
          (fun p => p.id)) ∧
      ¬ (updateStackOrder "s" ["p1"] dbPair).stackOrders = dbPair.stackOrders := by
  constructor
  · decide
  · decide

/-- C1 (amended): `updateStackOrder` unconditionally replaces the whole
position assignment of the stack: rows of other stacks are untouched,
every surviving row of this stack stores the 0-based index of its id in
the supplied sequence, and every supplied id obtains exactly its index
as position.  No permutation validation is performed, so non-permutation
inputs mutate state instead of being rejected. -/
theorem updateStackOrder_replaces_assignment (db : DB) (sid : String)
    (ids : List String) :
    (∀ o : StackOrderRow, ¬ o.stackId = sid →
      (o ∈ (updateStackOrder sid ids db).stackOrders ↔ o ∈ db.stackOrders)) ∧
    (∀ o : StackOrderRow, o ∈ (updateStackOrder sid ids db).stackOrders →
      o.stackId = sid → ids[o.position]? = some o.partSelectionId) ∧
    (∀ i : Nat, ∀ pid : String, ids[i]? = some pid →
      (⟨sid, pid, i⟩ : StackOrderRow) ∈ (updateStackOrder sid ids db).stackOrders) := by
  simp only [updateStackOrder, List.mem_append, List.mem_filter,
    List.mem_map, decide_eq_true_eq]
  refine ⟨?_, ?_, ?_⟩
  · intro o ho
    constructor
    · rintro (⟨hm, _⟩ | ⟨q, _, rfl⟩)
      · exact hm
      · exact absurd rfl ho
    · intro hm
      exact Or.inl ⟨hm, ho⟩
  · intro o hm hsid
    rcases hm with ⟨_, hne⟩ | ⟨q, hq, rfl⟩
    · exact absurd hsid hne
    · exact List.mk_mem_enum_iff_getElem?.mp hq
  · intro i pid hp
    exact Or.inr ⟨(i, pid), List.mk_mem_enum_iff_getElem?.mpr hp, rfl⟩

/-- Witness for the amended C1: the second id of a supplied sequence is
stored at position 1. -/
theorem updateStackOrder_replaces_assignment_witness :
    (⟨"s", "p1", 1⟩ : StackOrderRow) ∈
      (updateStackOrder "s" ["p2", "p1"] dbPair).stackOrders :=
  (updateStackOrder_replaces_assignment dbPair "s" ["p2", "p1"]).2.2 1 "p1" rfl

/-- C3 counterexample: a stack with one member whose referenced flange
spec does not exist returns normally with the member silently dropped by
the inner join; no data-integrity error is surfaced. -/
theorem getStackWithParts_silently_drops :
    getStackWithParts "s"
        { stackHeaders := [⟨"s", "T"⟩], flangeSpecs := [],
          partSelections :=
            [{ id := "p1", stackId := "s", partType := "ANNULAR",
               spoolGroupId := none, pressureValue := some 5000,
               flangeSpecId := "missing", createdAt := some 1 }],
          stackOrders := [⟨"s", "p1", 0⟩] } =
      some (⟨"s", "T"⟩, []) ∧
    ¬ ({ id := "p1", stackId := "s", partType := "ANNULAR",
         spoolGroupId := none, pressureValue := some 5000,
         flangeSpecId := "missing", createdAt := some 1 } : PartSelection).stackId ≠ "s" := by
  constructor
  · rfl
  · decide

theorem posLe_total (a b : Option Nat) : posLe a b = true ∨ posLe b a = true := by
  cases a <;> cases b <;> simp [posLe] <;> omega

theorem posLe_trans {a b c : Option Nat} (h1 : posLe a b = true)
    (h2 : posLe b c = true) : posLe a c = true := by
  cases a <;> cases b <;> cases c <;> simp [posLe] at * <;> omega

instance : IsTotal (PartWithSpec × Option Nat)
    (fun a b => posLe a.2 b.2 = true) :=
  ⟨fun a b => posLe_total a.2 b.2⟩

instance : IsTrans (PartWithSpec × Option Nat)
    (fun a b => posLe a.2 b.2 = true) :=
  ⟨fun _ _ _ => posLe_trans⟩

/-- C3 (amended): when the stack header exists, `getStackWithParts`
returns exactly the members whose referenced spec record is found (a
member with a missing spec is silently omitted by the inner join, not
surfaced as an error), sorted by stored position ascending with
position-less members last. -/
theorem getStackWithParts_spec (db : DB) (id : String) (st : StackHeader)
    (hst : db.stackHeaders.find? (fun s => s.id = id) = some st) :
    ∃ parts : List PartWithSpec,
      getStackWithParts id db = some (st, parts) ∧
      (∀ pw : PartWithSpec, pw ∈ parts ↔
        pw.part ∈ db.partSelections ∧ pw.part.stackId = id ∧
          db.flangeSpecs.find? (fun fs => fs.id = pw.part.flangeSpecId) =
            some pw.flangeSpec) ∧
      List.Pairwise
        (fun a b => posLe (positionOf db a.part.id) (positionOf db b.part.id) = true)
        parts := by
  unfold getStackWithParts
  rw [hst]
  refine ⟨_, rfl, ?_, ?_⟩
  · intro pw
    rw [List.mem_map]
    constructor
    · rintro ⟨q, hq, rfl⟩
      rw [List.mem_insertionSort, List.mem_filterMap] at hq
      obtain ⟨p, hp, hg⟩ := hq
      rw [List.mem_filter, decide_eq_true_eq] at hp
      rw [Option.map_eq_some'] at hg
      obtain ⟨fs, hfind, hfs⟩ := hg
      rw [← hfs]
      exact ⟨hp.1, hp.2, hfind⟩
    · rintro ⟨hm, hsid, hfind⟩
      refine ⟨(pw, positionOf db pw.part.id), ?_, rfl⟩
      rw [List.mem_insertionSort, List.mem_filterMap]
      refine ⟨pw.part, ?_, ?_⟩
      · rw [List.mem_filter, decide_eq_true_eq]
        exact ⟨hm, hsid⟩
      · rw [hfind]
        rfl
  · rw [List.pairwise_map]
    have hsorted := List.sorted_insertionSort
      (fun (a b : PartWithSpec × Option Nat) => posLe a.2 b.2 = true)
      ((db.partSelections.filter (fun p => p.stackId = id)).filterMap
        (fun p => (db.flangeSpecs.find? (fun fs => fs.id = p.flangeSpecId)).map
          (fun fs => (⟨p, fs⟩, positionOf db p.id))))
    refine hsorted.imp_of_mem ?_
    intro a b ha hb hr
    have key : ∀ q : PartWithSpec × Option Nat,
        q ∈ ((db.partSelections.filter (fun p => p.stackId = id)).filterMap
          (fun p => (db.flangeSpecs.find? (fun fs => fs.id = p.flangeSpecId)).map
            (fun fs => (⟨p, fs⟩, positionOf db p.id)))).insertionSort
              (fun a b => posLe a.2 b.2 = true) →
        q.2 = positionOf db q.1.part.id := by
      intro q hq
      rw [List.mem_insertionSort, List.mem_filterMap] at hq
      obtain ⟨p, _, hg⟩ := hq
      rw [Option.map_eq_some'] at hg
      obtain ⟨fs, _, hfs⟩ := hg
      rw [← hfs]
    rw [← key a ha, ← key b hb]
    exact hr

/-- Witness for the amended C3 on a concrete two-member stack. -/
theorem getStackWithParts_spec_witness :
    ∃ parts : List PartWithSpec,
      getStackWithParts "s" dbPair = some (⟨"s", "Stack"⟩, parts) ∧
      (∀ pw : PartWithSpec, pw ∈ parts ↔
        pw.part ∈ dbPair.partSelections ∧ pw.part.stackId = "s" ∧
          dbPair.flangeSpecs.find? (fun fs => fs.id = pw.part.flangeSpecId) =
            some pw.flangeSpec) ∧
      List.Pairwise
        (fun a b =>
          posLe (positionOf dbPair a.part.id) (positionOf dbPair b.part.id) = true)
        parts :=
  getStackWithParts_spec dbPair "s" ⟨"s", "Stack"⟩ rfl

/-- The number of part selections sharing a spool group id. -/
def countGroup (g : String) (db : DB) : Nat :=
  (db.partSelections.filter (fun p => p.spoolGroupId = some g)).length

def side1Sel : PartSelection :=
  { id := "sp1", stackId := "s", partType := "ADAPTER_SPOOL_SIDE",
    spoolGroupId := some "g", pressureValue := none, flangeSpecId := "fs1",
    createdAt := some 10 }

def side2Sel : PartSelection :=
  { id := "sp2", stackId := "s", partType := "ADAPTER_SPOOL_SIDE",
    spoolGroupId := some "g", pressureValue := none, flangeSpecId := "fs1",
    createdAt := some 20 }

/-- C6 counterexample: the two sides of a composite group are stored by
two separate append operations, so after the first append the group
durably holds a single side; and removing one side afterwards leaves the
group with exactly one member again — the exactly-two invariant fails in
both reachable states. -/
theorem composite_pair_not_preserved :
    countGroup "g" (addPartToStack side1Sel
        { stackHeaders := [⟨"s", "T"⟩], flangeSpecs := [sampleSpec] }) = 1 ∧
    countGroup "g" (removePartFromStack "sp1"
        (addPartToStack side2Sel (addPartToStack side1Sel
          { stackHeaders := [⟨"s", "T"⟩], flangeSpecs := [sampleSpec] }))) = 1 := by
  constructor
  · rfl
  · rfl

/-- C6 (amended): appending both sides of a fresh group does produce
exactly two members sharing the group id, but the pairing is not an
invariant: a state with one side stored exists between the two appends,
and removing a single side afterwards leaves the group with exactly one
member. -/
theorem composite_pairing_amended (db : DB) (s1 s2 : PartSelection)
    (g : String) (h1 : s1.spoolGroupId = some g) (h2 : s2.spoolGroupId = some g)
    (hne : ¬ s1.id = s2.id) (hfresh : countGroup g db = 0) :
    countGroup g (addPartToStack s1 db) = 1 ∧
    countGroup g (addPartToStack s2 (addPartToStack s1 db)) = 2 ∧
    countGroup g (removePartFromStack s1.id
      (addPartToStack s2 (addPartToStack s1 db))) = 1 := by
  have hnil : db.partSelections.filter (fun p => p.spoolGroupId = some g) = [] :=
    List.length_eq_zero.mp hfresh
  have hs1 : decide (s1.spoolGroupId = some g) = true := by simp [h1]
  have hs2 : decide (s2.spoolGroupId = some g) = true := by simp [h2]
  have hne2 : ¬ s2.id = s1.id := fun h => hne h.symm
  simp only [countGroup, addPartToStack, removePartFromStack]
  refine ⟨?_, ?_, ?_⟩
  · simp [List.filter_append, hnil, List.filter, hs1]
  · simp [List.filter_append, hnil, List.filter, hs1, hs2]
  · rw [List.filter_comm]
    simp [List.filter_append, hnil, List.filter, hs1, hs2, hne2]

/-- Witness for the amended C6 on concrete spool sides. -/
theorem composite_pairing_amended_witness :
    countGroup "g" (addPartToStack side1Sel
        { stackHeaders := [⟨"s", "T"⟩], flangeSpecs := [sampleSpec] }) = 1 ∧
    countGroup "g" (addPartToStack side2Sel (addPartToStack side1Sel
        { stackHeaders := [⟨"s", "T"⟩], flangeSpecs := [sampleSpec] })) = 2 ∧
    countGroup "g" (removePartFromStack "sp1"
        (addPartToStack side2Sel (addPartToStack side1Sel
          { stackHeaders := [⟨"s", "T"⟩], flangeSpecs := [sampleSpec] }))) = 1 :=
  composite_pairing_amended
    { stackHeaders := [⟨"s", "T"⟩], flangeSpecs := [sampleSpec] }
    side1Sel side2Sel "g" rfl rfl (by decide) rfl

/- Claim theorems: report formatter. -/

/-- C7 counterexample: an attribute-driven part whose stored target
value is 0 (non-null) renders without the target-value segment, because
the source tests JavaScript truthiness, not nullness. -/
theorem display_name_zero_target_dropped :
    getPartDisplayName "ANNULAR" (some 0) = "Annular" ∧
      pressureDrivenParts.contains "ANNULAR" = true ∧
      (some (0 : Int)).isSome = true := by
  refine ⟨rfl, rfl, rfl⟩

/-- C7 (amended): the rendered display name carries the target-value
segment exactly when the category is attribute-driven and the target
value is present and non-zero; geometry-driven and composite categories,
null values, and a stored zero all render the bare base name. -/
theorem display_name_target_segment (pt : String) (p : Option Int) :
    (∀ v : Int, p = some v → pressureDrivenParts.contains pt = true →
      ¬ v = 0 →
      getPartDisplayName pt p = partBaseName pt ++ " – Pressure " ++ toString v) ∧
    (pressureDrivenParts.contains pt = false →
      getPartDisplayName pt p = partBaseName pt) ∧
    (p = none → getPartDisplayName pt p = partBaseName pt) ∧
    (p = some 0 → getPartDisplayName pt p = partBaseName pt) := by
  refine ⟨?_, ?_, ?_, ?_⟩
  · rintro v rfl hdrv hv
    have hmem : pt ∈ pressureDrivenParts := by simpa using hdrv
    simp [getPartDisplayName, hmem, hv]
  · intro hdrv
    have hmem : pt ∉ pressureDrivenParts := by simpa using hdrv
    cases p with
    | none => rfl
    | some v => simp [getPartDisplayName, hmem]
  · rintro rfl
    rfl
  · rintro rfl
    simp [getPartDisplayName]

/-- Witness for the amended C7: a non-zero target on an attribute-driven
part renders the segment. -/
theorem display_name_target_segment_witness :
    getPartDisplayName "ANNULAR" (some 5000) =
      partBaseName "ANNULAR" ++ " – Pressure " ++ toString (5000 : Int) :=
  (display_name_target_segment "ANNULAR" (some 5000)).1 5000 rfl rfl (by decide)

/- Claim C8: composite labeling. -/

theorem charsLe_total : ∀ as bs : List Char,
    charsLe as bs = true ∨ charsLe bs as = true := by
  intro as
  induction as with
  | nil => intro bs; exact Or.inl rfl
  | cons a as ih =>
    intro bs
    cases bs with
    | nil => exact Or.inr rfl
    | cons b bs =>
      by_cases h1 : a.toNat < b.toNat
      · left
        simp [charsLe, h1]
      · by_cases h2 : b.toNat < a.toNat
        · right
          simp [charsLe, h2]
        · rcases ih bs with h | h
          · left
            simp [charsLe, h1, h2, h]
          · right
            simp [charsLe, h1, h2, h]

theorem charsLe_trans : ∀ as bs cs : List Char,
    charsLe as bs = true → charsLe bs cs = true → charsLe as cs = true := by
  intro as
  induction as with
  | nil => intro bs cs _ _; rfl
  | cons a as ih =>
    intro bs cs h1 h2
    cases bs with
    | nil => simp [charsLe] at h1
    | cons b bs =>
      cases cs with
      | nil => simp [charsLe] at h2
      | cons c cs =>
        simp only [charsLe] at h1 h2 ⊢
        rcases Nat.lt_trichotomy a.toNat b.toNat with hab | hab | hab
        · rcases Nat.lt_trichotomy b.toNat c.toNat with hbc | hbc | hbc
          · have hac : a.toNat < c.toNat := by omega
            simp [hac]
          · have hac : a.toNat < c.toNat := by omega
            simp [hac]
          · have hnbc : ¬ b.toNat < c.toNat := by omega
            simp [hnbc, hbc] at h2
        · rcases Nat.lt_trichotomy b.toNat c.toNat with hbc | hbc | hbc
          · have hac : a.toNat < c.toNat := by omega
            simp [hac]
          · have h1' : charsLe as bs = true := by
              have hnab : ¬ a.toNat < b.toNat := by omega
              have hnba : ¬ b.toNat < a.toNat := by omega
              simpa [hnab, hnba] using h1
            have h2' : charsLe bs cs = true := by
              have hnbc : ¬ b.toNat < c.toNat := by omega
              have hncb : ¬ c.toNat < b.toNat := by omega
              simpa [hnbc, hncb] using h2
            have hnac : ¬ a.toNat < c.toNat := by omega
            have hnca : ¬ c.toNat < a.toNat := by omega
            simp [hnac, hnca, ih bs cs h1' h2']
          · have hnbc : ¬ b.toNat < c.toNat := by omega
            simp [hnbc, hbc] at h2
        · have hnab : ¬ a.toNat < b.toNat := by omega
          simp [hnab, hab] at h1

instance : IsTotal String (fun a b => strLe a b = true) :=
  ⟨fun a b => charsLe_total a.data b.data⟩

instance : IsTrans String (fun a b => strLe a b = true) :=
  ⟨fun a b c => charsLe_trans a.data b.data c.data⟩

theorem foldl_min_mem (xs : List Int) : ∀ x : Int, xs.foldl min x ∈ x :: xs := by
  induction xs with
  | nil => intro x; simp
  | cons y ys ih =>
    intro x
    simp only [List.foldl_cons]
    rcases List.mem_cons.mp (ih (min x y)) with h0 | h0
    · rcases min_choice x y with hm | hm <;> rw [h0, hm] <;> simp
    · exact List.mem_cons.mpr (Or.inr (List.mem_cons.mpr (Or.inr h0)))

theorem foldl_max_mem (xs : List Int) : ∀ x : Int, xs.foldl max x ∈ x :: xs := by
  induction xs with
  | nil => intro x; simp
  | cons y ys ih =>
    intro x
    simp only [List.foldl_cons]
    rcases List.mem_cons.mp (ih (max x y)) with h0 | h0
    · rcases max_choice x y with hm | hm <;> rw [h0, hm] <;> simp
    · exact List.mem_cons.mpr (Or.inr (List.mem_cons.mpr (Or.inr h0)))

theorem foldl_min_le (xs : List Int) : ∀ x : Int, ∀ y ∈ x :: xs,
    xs.foldl min x ≤ y := by
  induction xs with
  | nil =>
    intro x y hy
    simp only [List.foldl_nil]
    simp at hy
    simp [hy]
  | cons z zs ih =>
    intro x y hy
    simp only [List.foldl_cons]
    have hmin : zs.foldl min (min x z) ≤ min x z :=
      ih (min x z) (min x z) (List.mem_cons_self _ _)
    rcases List.mem_cons.mp hy with h | h
    · rw [h]
      exact le_trans hmin (min_le_left x z)
    · rcases List.mem_cons.mp h with h2 | h2
      · rw [h2]
        exact le_trans hmin (min_le_right x z)
      · exact ih (min x z) y (List.mem_cons.mpr (Or.inr h2))

theorem le_foldl_max (xs : List Int) : ∀ x : Int, ∀ y ∈ x :: xs,
    y ≤ xs.foldl max x := by
  induction xs with
  | nil =>
    intro x y hy
    simp only [List.foldl_nil]
    simp at hy
    simp [hy]
  | cons z zs ih =>
    intro x y hy
    simp only [List.foldl_cons]
    have hmax : max x z ≤ zs.foldl max (max x z) :=
      ih (max x z) (max x z) (List.mem_cons_self _ _)
    rcases List.mem_cons.mp hy with h | h
    · rw [h]
      exact le_trans (le_max_left x z) hmax
    · rcases List.mem_cons.mp h with h2 | h2
      · rw [h2]
        exact le_trans (le_max_right x z) hmax
      · exact ih (max x z) y (List.mem_cons.mpr (Or.inr h2))

/-- C9 counterexample: a part instance with a stored zero target value
(non-null) yields a summary range of "N/A": the code keeps only
strictly positive values, not all non-null values. -/
theorem report_range_drops_zero :
    getPressureRanges
        [⟨{ id := "p0", stackId := "s", partType := "ANNULAR",
            spoolGroupId := none, pressureValue := some 0,
            flangeSpecId := "fs1", createdAt := some 1 }, sampleSpec⟩] = "N/A" ∧
      ({ id := "p0", stackId := "s", partType := "ANNULAR",
         spoolGroupId := none, pressureValue := some 0,
         flangeSpecId := "fs1", createdAt := some 1 } :
           PartSelection).pressureValue = some 0 :=
  ⟨rfl, rfl⟩

/-- C9 (amended): the report summary's total count is the full joined
instance count (composite sides counted individually); the target-value
range is the min/max of the non-null STRICTLY POSITIVE target values
(null, zero and negative values are dropped), rendered as a single value
when min = max and as "N/A" when no such value exists; the pressure
classes are the distinct labels of the referenced spec records, sorted
and joined by ", ", with "N/A" exactly when the joined string is empty. -/
theorem report_summary_spec (parts : List PartWithSpec) :
    reportTotalParts parts = parts.length ∧
    (positivePressures parts = [] → getPressureRanges parts = "N/A") ∧
    (¬ positivePressures parts = [] →
      ∃ mn mx : Int, mn ∈ positivePressures parts ∧
        mx ∈ positivePressures parts ∧
        (∀ v ∈ positivePressures parts, mn ≤ v ∧ v ≤ mx) ∧
        getPressureRanges parts =
          (if mn = mx then toString mn ++ " PSI"
           else toString mn ++ "-" ++ toString mx ++ " PSI")) ∧
    (∃ cs : List String,
      List.Pairwise (fun a b => strLe a b = true) cs ∧ cs.Nodup ∧
      (∀ x : String,
        x ∈ cs ↔ x ∈ parts.map (fun p => p.flangeSpec.pressureClassLabel)) ∧
      getFlangeClasses parts =
        (if String.intercalate ", " cs = "" then "N/A"
         else String.intercalate ", " cs)) := by
  refine ⟨rfl, ?_, ?_, ?_⟩
  · intro h
    simp only [getPressureRanges, h]
    rfl
  · intro h
    have hperm := List.perm_insertionSort (fun a b : Int => a ≤ b)
      (positivePressures parts)
    cases hsort : (positivePressures parts).insertionSort
        (fun a b : Int => a ≤ b) with
    | nil =>
      rw [hsort] at hperm
      exact absurd (hperm.symm.eq_nil) h
    | cons x xs =>
      rw [hsort] at hperm
      refine ⟨xs.foldl min x, xs.foldl max x,
        hperm.subset (foldl_min_mem xs x),
        hperm.subset (foldl_max_mem xs x), ?_, ?_⟩
      · intro v hv
        have hv' : v ∈ x :: xs := hperm.symm.subset hv
        exact ⟨foldl_min_le xs x v hv', le_foldl_max xs x v hv'⟩
      · simp only [getPressureRanges, hsort]
  · refine ⟨((parts.map (fun p => p.flangeSpec.pressureClassLabel)).dedup).insertionSort
      (fun a b => strLe a b = true), ?_, ?_, ?_, ?_⟩
    · exact List.sorted_insertionSort _ _
    · exact (List.perm_insertionSort _ _).nodup_iff.mpr (List.nodup_dedup _)
    · intro x
      rw [List.mem_insertionSort, List.mem_dedup]
    · rfl

/-- Witness for the amended C9: a stack whose only member carries no
target value reports "N/A". -/
theorem report_summary_spec_witness :
    getPressureRanges [⟨partSel2, sampleSpec⟩] = "N/A" :=
  (report_summary_spec [⟨partSel2, sampleSpec⟩]).2.1 rfl

end BOP
